import Mathlib

/-!
Verification of the trajectory-generation and flythrough-orchestration logic of
`kamodo_ccmc/flythrough/SatelliteFlythrough.py`.

The Python functions are shallowly embedded:

* floating-point quantities are idealised as `ℚ` (timestamps, longitudes,
  cadences) or `ℝ` (the trigonometric latitude/height tracks);
* `numpy` arrays become `List`s;
* Python `int()` (truncation toward zero) becomes `pyInt`;
* the in-place `results[..][idx] = ...` writes of `TLETrajectory`'s
  TLE-assignment loop become last-write-wins folds over the loop index;
* the control flow of `ModelFlythrough` (which calls external collaborators
  for model resolution, interpolation, file writing and plotting) is embedded
  as a trace of events plus an optional raised error.
-/

/-- Python `int()` applied to a rational: truncation toward zero. -/
def pyInt (q : ℚ) : ℤ := if q < 0 then ⌈q⌉ else ⌊q⌋

lemma pyInt_of_nonneg {q : ℚ} (h : 0 ≤ q) : pyInt q = ⌊q⌋ := by
  unfold pyInt
  rw [if_neg (not_lt.mpr h)]

/-- `np.linspace a b m`: `m` evenly spaced samples from `a` to `b` inclusive
(step `(b - a)/(m - 1)`).  For `m = 1` the division is by zero, which in Lean
yields `0` and hence the single sample `a`, matching `np.linspace`. -/
def linspace {α : Type} [DivisionRing α] (a b : α) (m : ℕ) : List α :=
  (List.range m).map (fun i : ℕ => a + (b - a) * (i : α) / ((m : α) - 1))

lemma linspace_length {α : Type} [DivisionRing α] (a b : α) (m : ℕ) :
    (linspace a b m).length = m := by
  unfold linspace
  rw [List.length_map, List.length_range]

lemma linspace_getD {α : Type} [DivisionRing α] (a b : α) {m i : ℕ} (hi : i < m) :
    (linspace a b m).getD i 0 = a + (b - a) * (i : α) / ((m : α) - 1) := by
  unfold linspace
  rw [List.getD_eq_getElem _ _ (by rw [List.length_map, List.length_range]; exact hi)]
  simp only [List.getElem_map, List.getElem_range]

lemma linspace_getD_zero {α : Type} [DivisionRing α] (a b : α) {m : ℕ} (hm : 0 < m) :
    (linspace a b m).getD 0 0 = a := by
  rw [linspace_getD a b hm]
  simp

lemma linspace_getD_last {α : Type} [Field α] (a b : α) {m : ℕ} (hm : 0 < m)
    (hm2 : (m : α) - 1 ≠ 0) :
    (linspace a b m).getD (m - 1) 0 = b := by
  rw [linspace_getD a b (by omega)]
  have hcast : ((m - 1 : ℕ) : α) = (m : α) - 1 := by
    have : ((m - 1 : ℕ) : α) = ((m : ℕ) : α) - ((1 : ℕ) : α) := by
      exact_mod_cast Nat.cast_sub (by omega)
    simpa using this
  rw [hcast, mul_div_assoc, div_self hm2]
  ring

lemma linspace_getD_succ_sub {α : Type} [Field α] (a b : α) {m i : ℕ}
    (hi : i + 1 < m) :
    (linspace a b m).getD (i + 1) 0 - (linspace a b m).getD i 0 =
      (b - a) / ((m : α) - 1) := by
  rw [linspace_getD a b hi, linspace_getD a b (by omega)]
  push_cast
  ring

lemma linspace_mem_nonneg {α : Type} [LinearOrderedField α] {a b : α} {m : ℕ}
    (ha : 0 ≤ a) (hb : a ≤ b) : ∀ x ∈ linspace a b m, 0 ≤ x := by
  intro x hx
  unfold linspace at hx
  rcases List.mem_map.mp hx with ⟨i, hi, rfl⟩
  rcases Nat.lt_or_ge m 2 with hm | hm
  · interval_cases m
    · simp at hi
    · simp at hi
      subst hi
      simpa using ha
  · have hm1 : (0 : α) < (m : α) - 1 := by
      have : (2 : α) ≤ (m : α) := by exact_mod_cast hm
      linarith
    have : 0 ≤ (b - a) * (i : α) / ((m : α) - 1) := by
      apply div_nonneg _ (le_of_lt hm1)
      exact mul_nonneg (by linarith) (by exact_mod_cast Nat.cast_nonneg (α := α) i)
    linarith

/-- `max` of a numpy array (Python `max` of a nonempty array; the `[]` case is a
modelling default that is only reached where the Python code would raise). -/
def maxD : List ℚ → ℚ
  | [] => 0
  | x :: xs => xs.foldl max x

lemma foldl_max_le {xs : List ℚ} {a b : ℚ} (ha : a ≤ b) (hx : ∀ x ∈ xs, x ≤ b) :
    xs.foldl max a ≤ b := by
  induction xs generalizing a with
  | nil => exact ha
  | cons y ys ih =>
    exact ih (max_le ha (hx y (by simp))) (fun x hx2 => hx x (by simp [hx2]))

lemma le_foldl_max_init (xs : List ℚ) (a : ℚ) : a ≤ xs.foldl max a := by
  induction xs generalizing a with
  | nil => exact le_refl a
  | cons y ys ih => exact le_trans (le_max_left a y) (ih (max a y))

lemma le_foldl_max_mem {xs : List ℚ} {x : ℚ} (hx : x ∈ xs) (a : ℚ) :
    x ≤ xs.foldl max a := by
  induction xs generalizing a with
  | nil => cases hx
  | cons y ys ih =>
    rcases List.mem_cons.mp hx with h | h
    · subst h
      exact le_trans (le_max_right a x) (le_foldl_max_init ys (max a x))
    · exact ih h (max a y)

lemma foldl_max_mem (xs : List ℚ) (a : ℚ) :
    xs.foldl max a = a ∨ xs.foldl max a ∈ xs := by
  induction xs generalizing a with
  | nil => left; rfl
  | cons y ys ih =>
    rcases ih (max a y) with h | h
    · rcases max_cases a y with ⟨h2, _⟩ | ⟨h2, _⟩
      · left
        rw [List.foldl_cons, h, h2]
      · right
        rw [List.foldl_cons, h, h2]
        exact List.mem_cons_self y ys
    · right
      exact List.mem_cons_of_mem y h

lemma le_maxD {l : List ℚ} {x : ℚ} (hx : x ∈ l) : x ≤ maxD l := by
  cases l with
  | nil => cases hx
  | cons y ys =>
    rcases List.mem_cons.mp hx with h | h
    · subst h
      exact le_foldl_max_init ys x
    · exact le_foldl_max_mem h y

lemma maxD_le {l : List ℚ} {b : ℚ} (hne : l ≠ []) (h : ∀ x ∈ l, x ≤ b) :
    maxD l ≤ b := by
  cases l with
  | nil => exact absurd rfl hne
  | cons y ys =>
    exact foldl_max_le (h y (by simp)) (fun x hx => h x (by simp [hx]))

lemma maxD_mem {l : List ℚ} (hne : l ≠ []) : maxD l ∈ l := by
  cases l with
  | nil => exact absurd rfl hne
  | cons y ys =>
    rcases foldl_max_mem ys y with h | h
    · rw [maxD, h]
      exact List.mem_cons_self y ys
    · exact List.mem_cons_of_mem y h

/-- One pass of `lon[np.where(lon > 360.)[0]] -= 360.`. -/
def wrapStepDown (l : List ℚ) : List ℚ :=
  l.map (fun x => if 360 < x then x - 360 else x)

/-- The loop `while max(lon) > 360.: lon[np.where(lon > 360.)[0]] -= 360.`
of `SampleTrajectory`. -/
def wrapDown (l : List ℚ) : List ℚ :=
  if 360 < maxD l then wrapDown (wrapStepDown l) else l
termination_by (⌈maxD l⌉ - 360).toNat
decreasing_by
  rename_i h
  have hne : l ≠ [] := by
    intro hl
    rw [hl] at h
    norm_num [maxD] at h
  have hceil : (360 : ℤ) < ⌈maxD l⌉ := by
    rw [Int.lt_ceil]
    exact_mod_cast h
  have hstep : ∀ x ∈ wrapStepDown l, x ≤ max 360 (maxD l - 360) := by
    intro x hx
    rcases List.mem_map.mp hx with ⟨y, hy, rfl⟩
    by_cases hy360 : 360 < y
    · rw [if_pos hy360]
      exact le_max_of_le_right (by linarith [le_maxD hy])
    · rw [if_neg hy360]
      exact le_max_of_le_left (not_lt.mp hy360)
  have hne2 : wrapStepDown l ≠ [] := by
    simpa [wrapStepDown] using hne
  have hmax : maxD (wrapStepDown l) ≤ max 360 (maxD l - 360) := maxD_le hne2 hstep
  rcases le_total (maxD l) 720 with h720 | h720
  · have : maxD (wrapStepDown l) ≤ 360 := le_trans hmax (by simp; linarith)
    have hc : ⌈maxD (wrapStepDown l)⌉ ≤ 360 := by
      rw [Int.ceil_le]
      exact_mod_cast this
    have h1 : (⌈maxD (wrapStepDown l)⌉ - 360).toNat = 0 := by omega
    have h2 : 0 < (⌈maxD l⌉ - 360).toNat := by omega
    omega
  · have : maxD (wrapStepDown l) ≤ maxD l - 360 := le_trans hmax (by simp; linarith)
    have hc : ⌈maxD (wrapStepDown l)⌉ ≤ ⌈maxD l⌉ - 360 := by
      have h2 : ⌈maxD (wrapStepDown l)⌉ ≤ ⌈maxD l - 360⌉ := Int.ceil_le_ceil this

      have h3 : ⌈maxD l - 360⌉ = ⌈maxD l⌉ - 360 := by
        rw [show (360 : ℚ) = ((360 : ℤ) : ℚ) by norm_num]
        exact Int.ceil_sub_int (maxD l) 360
      omega
    omega

/-- One pass of `lon[np.where(lon < 0.)[0]] += 360.`. -/
def wrapStepUp (l : List ℚ) : List ℚ :=
  l.map (fun x => if x < 0 then x + 360 else x)

/-- The loop `while max(lon) < 0.: lon[np.where(lon < 0.)[0]] += 360.`
of `SampleTrajectory` (note: the guard tests the maximum, not the minimum). -/
def wrapUp (l : List ℚ) : List ℚ :=
  if maxD l < 0 then wrapUp (wrapStepUp l) else l
termination_by (-⌊maxD l⌋).toNat
decreasing_by
  rename_i h
  have hne : l ≠ [] := by
    intro hl
    rw [hl] at h
    norm_num [maxD] at h
  have hfl : ⌊maxD l⌋ < 0 := by
    rw [Int.floor_lt]
    exact_mod_cast h
  have hmem : maxD l + 360 ∈ wrapStepUp l := by
    apply List.mem_map.mpr
    exact ⟨maxD l, maxD_mem hne, by simp [h]⟩
  have hge : maxD l + 360 ≤ maxD (wrapStepUp l) := le_maxD hmem
  have hfl2 : ⌊maxD l⌋ + 360 ≤ ⌊maxD (wrapStepUp l)⌋ := by
    have h1 : ⌊maxD l + 360⌋ ≤ ⌊maxD (wrapStepUp l)⌋ := Int.floor_le_floor hge
    have h2 : ⌊maxD l + 360⌋ = ⌊maxD l⌋ + 360 := by
      rw [show (360 : ℚ) = ((360 : ℤ) : ℚ) by norm_num]
      exact Int.floor_add_int (maxD l) 360
    omega
  omega

lemma wrapStepDown_length (l : List ℚ) : (wrapStepDown l).length = l.length := by
  simp [wrapStepDown]

lemma wrapDown_length (l : List ℚ) : (wrapDown l).length = l.length := by
  induction l using wrapDown.induct with
  | case1 l h ih =>
    rw [wrapDown, if_pos h, ih, wrapStepDown_length]
  | case2 l h => rw [wrapDown, if_neg h]

lemma wrapDown_eq_self {l : List ℚ} (h : maxD l ≤ 360) : wrapDown l = l := by
  rw [wrapDown, if_neg (not_lt.mpr h)]

lemma wrapDown_nonneg : ∀ l : List ℚ, (∀ x ∈ l, 0 ≤ x) → ∀ x ∈ wrapDown l, 0 ≤ x := by
  intro l
  induction l using wrapDown.induct with
  | case1 l hl ih =>
    intro h
    rw [wrapDown, if_pos hl]
    apply ih
    intro x hx
    rcases List.mem_map.mp hx with ⟨y, hy, rfl⟩
    by_cases hy360 : 360 < y
    · rw [if_pos hy360]
      linarith [h y hy]
    · rw [if_neg hy360]
      exact h y hy
  | case2 l hl =>
    intro h
    rw [wrapDown, if_neg hl]
    exact h

lemma wrapDown_max_le (l : List ℚ) : maxD (wrapDown l) ≤ 360 := by
  induction l using wrapDown.induct with
  | case1 l h ih => rw [wrapDown, if_pos h]; exact ih
  | case2 l h => rw [wrapDown, if_neg h]; exact not_lt.mp h

lemma wrapUp_length (l : List ℚ) : (wrapUp l).length = l.length := by
  induction l using wrapUp.induct with
  | case1 l h ih =>
    rw [wrapUp, if_pos h]
    rw [ih]
    simp [wrapStepUp]
  | case2 l h => rw [wrapUp, if_neg h]

lemma wrapUp_eq_self {l : List ℚ} (h : 0 ≤ maxD l) : wrapUp l = l := by
  rw [wrapUp, if_neg (not_lt.mpr h)]

/-! ## `SampleTrajectory` (the synthetic-orbit generator, source lines 103-160) -/

/-- Line 130: `orbit_seconds = int(90.*60./float(n))`, the number of samples
in one 90-minute orbit. -/
def orbit_seconds (n : ℚ) : ℤ := pyInt (90 * 60 / n)

/-- Line 131: `n_orbits = (stop_time-start_time)/float(orbit_seconds*n)`. -/
def n_orbits (start_time stop_time n : ℚ) : ℚ :=
  (stop_time - start_time) / ((orbit_seconds n : ℚ) * n)

/-- Line 134:
`time_left = (stop_time-start_time)/float(n) - int(n_orbits)*orbit_seconds`. -/
def time_left (start_time stop_time n : ℚ) : ℚ :=
  (stop_time - start_time) / n -
    (pyInt (n_orbits start_time stop_time n) : ℚ) * (orbit_seconds n : ℚ)

/-- The sample count `int((stop_time-start_time)/float(n))` used for `lon`,
the height decay and `sat_time` (lines 143-144, 150, 153-154). -/
def sample_N (start_time stop_time n : ℚ) : ℕ :=
  (pyInt ((stop_time - start_time) / n)).toNat

/-- Line 137: `pi_arr = np.linspace(0., 2.*np.pi, orbit_seconds)`. -/
noncomputable def pi_arr (m : ℕ) : List ℝ := linspace 0 (2 * Real.pi) m

/-- `np.tile l k`: the list `l` repeated `k` times. -/
def tile {α : Type} (l : List α) (k : ℕ) : List α := (List.replicate k l).flatten

/-- Lines 138-142: the raw cosine latitude track, `int(n_orbits)` whole orbits
of `np.cos(pi_arr)` plus, when `time_left > 0`, the truncated partial orbit
`np.cos(pi_arr[0:int(time_left)])`. -/
noncomputable def lat_base (start_time stop_time n : ℚ) : List ℝ :=
  if 0 < time_left start_time stop_time n then
    tile ((pi_arr (orbit_seconds n).toNat).map Real.cos)
        (pyInt (n_orbits start_time stop_time n)).toNat ++
      ((pi_arr (orbit_seconds n).toNat).take
        (pyInt (time_left start_time stop_time n)).toNat).map Real.cos
  else
    tile ((pi_arr (orbit_seconds n).toNat).map Real.cos)
      (pyInt (n_orbits start_time stop_time n)).toNat

/-- Lines 138-142: the raw sine height track (same structure with `np.sin`). -/
noncomputable def height_base (start_time stop_time n : ℚ) : List ℝ :=
  if 0 < time_left start_time stop_time n then
    tile ((pi_arr (orbit_seconds n).toNat).map Real.sin)
        (pyInt (n_orbits start_time stop_time n)).toNat ++
      ((pi_arr (orbit_seconds n).toNat).take
        (pyInt (time_left start_time stop_time n)).toNat).map Real.sin
  else
    tile ((pi_arr (orbit_seconds n).toNat).map Real.sin)
      (pyInt (n_orbits start_time stop_time n)).toNat

/-- Lines 143-148: `lon = np.linspace(0., lon_perorbit*n_orbits, N)` followed by
the two modular-correction `while` loops (subtract 360 while the maximum
exceeds 360, then add 360 while the maximum is negative). -/
def sample_lon (start_time stop_time lon_perorbit n : ℚ) : List ℚ :=
  wrapUp (wrapDown (linspace 0 (lon_perorbit * n_orbits start_time stop_time n)
    (sample_N start_time stop_time n)))

/-- Line 153-154: `sat_time = np.linspace(start_time, stop_time, N)`. -/
def sample_sat_time (start_time stop_time n : ℚ) : List ℚ :=
  linspace start_time stop_time (sample_N start_time stop_time n)

/-- Line 155: `c1 = lon - 180`. -/
def sample_c1 (start_time stop_time lon_perorbit n : ℚ) : List ℚ :=
  (sample_lon start_time stop_time lon_perorbit n).map (fun x => x - 180)

/-- Line 155: `c2 = lat*lat_scale + lat_offset`, with
`lat_scale = (max_lat-min_lat)/2` and `lat_offset = np.mean([max_lat, min_lat])`
(line 133). -/
noncomputable def sample_c2 (start_time stop_time n : ℚ) (max_lat min_lat : ℝ) :
    List ℝ :=
  (lat_base start_time stop_time n).map
    (fun x => x * ((max_lat - min_lat) / 2) + (max_lat + min_lat) / 2)

/-- Lines 149-150: `c3 = height*h_scale + h_offset - np.linspace(0,p,N)*min_height`
with `h_scale = (max_height-min_height)/2`, `h_offset = np.mean([max_height,
min_height])` (line 132); the elementwise numpy arithmetic is a `zipWith`. -/
noncomputable def sample_c3 (start_time stop_time n : ℚ)
    (max_height min_height p : ℝ) : List ℝ :=
  List.zipWith
    (fun h d => h * ((max_height - min_height) / 2) + (max_height + min_height) / 2 -
      d * min_height)
    (height_base start_time stop_time n)
    (linspace 0 p (sample_N start_time stop_time n))

lemma tile_length {α : Type} (l : List α) (k : ℕ) :
    (tile l k).length = k * l.length := by
  simp [tile]

lemma tile_mem {α : Type} {l : List α} {k : ℕ} {x : α} (hx : x ∈ tile l k) :
    x ∈ l := by
  unfold tile at hx
  rcases List.mem_flatten.mp hx with ⟨s, hs, hxs⟩
  rcases List.eq_of_mem_replicate hs with rfl
  exact hxs

/-- C3: the counterexample.  At cadence `n = 1440` seconds the code computes
`orbit_seconds = int(90*60/1440) = int(3.75) = 3` samples per orbit, while the
claim's `round(5400/1440) = round(3.75) = 4`. -/
theorem C3_counterexample :
    orbit_seconds 1440 = 3 ∧ round ((5400 : ℚ) / 1440) = 4 ∧
      orbit_seconds 1440 ≠ round ((5400 : ℚ) / 1440) := by
  refine ⟨?_, ?_, ?_⟩
  · norm_num [orbit_seconds, pyInt]
  · rw [round_eq]
    norm_num
  · norm_num [orbit_seconds, pyInt, round_eq]

/-- C3 (amended): for every positive cadence `n`, the synthetic orbit generator
uses samples-per-orbit `⌊5400/n⌋` (Python `int()` truncation, not rounding to
the nearest integer), and the latitude/height sinusoid parameter array is
`np.linspace(0, 2π, orbit_seconds)`: it has exactly `orbit_seconds` samples,
starts at `0` and (when there are at least two samples) ends at `2π`. -/
theorem C3_orbit_sampling (n : ℚ) (hn : 0 < n) :
    orbit_seconds n = ⌊(5400 : ℚ) / n⌋ ∧
    (pi_arr (orbit_seconds n).toNat).length = (orbit_seconds n).toNat ∧
    (pi_arr (orbit_seconds n).toNat).getD 0 0 = 0 ∧
    (2 ≤ (orbit_seconds n).toNat →
      (pi_arr (orbit_seconds n).toNat).getD ((orbit_seconds n).toNat - 1) 0 =
        2 * Real.pi) := by
  refine ⟨?_, linspace_length _ _ _, ?_, ?_⟩
  · unfold orbit_seconds
    rw [pyInt_of_nonneg (div_nonneg (by norm_num) hn.le)]
    norm_num
  · by_cases hm : 0 < (orbit_seconds n).toNat
    · exact linspace_getD_zero _ _ hm
    · have h0 : (orbit_seconds n).toNat = 0 := by omega
      rw [pi_arr, h0]
      rfl
  · intro hm
    apply linspace_getD_last _ _ (by omega)
    have h2 : (2 : ℝ) ≤ ((orbit_seconds n).toNat : ℝ) := by exact_mod_cast hm
    intro hc
    rw [sub_eq_zero] at hc
    rw [hc] at h2
    norm_num at h2

/-- Witness for C3's amended theorem at the default cadence `n = 2`. -/
theorem C3_orbit_sampling_witness :
    orbit_seconds 2 = ⌊(5400 : ℚ) / 2⌋ ∧ orbit_seconds 2 = 2700 :=
  ⟨(C3_orbit_sampling 2 (by norm_num)).1, by norm_num [orbit_seconds, pyInt]⟩

lemma lat_base_mem_cos {start_time stop_time n : ℚ} {x : ℝ}
    (hx : x ∈ lat_base start_time stop_time n) : ∃ θ : ℝ, Real.cos θ = x := by
  unfold lat_base at hx
  by_cases hc : 0 < time_left start_time stop_time n
  · rw [if_pos hc] at hx
    rcases List.mem_append.mp hx with h | h
    · rcases List.mem_map.mp (tile_mem h) with ⟨θ, _, rfl⟩
      exact ⟨θ, rfl⟩
    · rcases List.mem_map.mp h with ⟨θ, hθ, rfl⟩
      exact ⟨θ, rfl⟩
  · rw [if_neg hc] at hx
    rcases List.mem_map.mp (tile_mem hx) with ⟨θ, _, rfl⟩
    exact ⟨θ, rfl⟩

/-- C4: the counterexample.  With `start_time = 0`, `stop_time = 4`, cadence
`n = 2` and `lon_perorbit = -270000` (a negative value, explicitly allowed by
the claim) the longitude track is `linspace(0, -200, 2) = [0, -200]`; since its
*maximum* is `0`, neither correction loop fires, and `c1` contains `-380`,
outside `[-180, 180)`.  With `lon_perorbit = 486000` the track is `[0, 360]`
(maximum exactly `360`, again no loop fires) and `c1` contains `180`, which
violates the claimed strict upper bound `c1 < 180`. -/
theorem C4_counterexample :
    ((-380 : ℚ) ∈ sample_c1 0 4 (-270000) 2 ∧
      ¬ (-180 ≤ (-380 : ℚ) ∧ (-380 : ℚ) < 180)) ∧
    ((180 : ℚ) ∈ sample_c1 0 4 486000 2 ∧ ¬ ((180 : ℚ) < 180)) := by
  have hN : sample_N 0 4 2 = 2 := by
    unfold sample_N
    rw [show ((4 : ℚ) - 0) / 2 = 2 by norm_num, pyInt_of_nonneg (by norm_num),
      show ⌊(2 : ℚ)⌋ = 2 by norm_num]
    rfl
  have hE : (-270000 : ℚ) * n_orbits 0 4 2 = -200 := by
    norm_num [n_orbits, orbit_seconds, pyInt]
  have hlin : linspace (0 : ℚ) (-200) 2 = [0, -200] := by
    norm_num [linspace, List.range_succ]
  have hmax1 : maxD [0, -200] = 0 := by
    norm_num [maxD, List.foldl_cons, List.foldl_nil, max_def]
  have hlon : sample_lon 0 4 (-270000) 2 = [0, -200] := by
    unfold sample_lon
    rw [hN, hE, hlin, wrapDown_eq_self (by rw [hmax1]; norm_num),
      wrapUp_eq_self (by rw [hmax1])]
  have hc1 : sample_c1 0 4 (-270000) 2 = [-180, -380] := by
    unfold sample_c1
    rw [hlon]
    norm_num
  have hE2 : (486000 : ℚ) * n_orbits 0 4 2 = 360 := by
    norm_num [n_orbits, orbit_seconds, pyInt]
  have hlin2 : linspace (0 : ℚ) 360 2 = [0, 360] := by
    norm_num [linspace, List.range_succ]
  have hmax2 : maxD [0, 360] = 360 := by
    norm_num [maxD, List.foldl_cons, List.foldl_nil, max_def]
  have hlon2 : sample_lon 0 4 486000 2 = [0, 360] := by
    unfold sample_lon
    rw [hN, hE2, hlin2, wrapDown_eq_self (by rw [hmax2]),
      wrapUp_eq_self (by rw [hmax2]; norm_num)]
  have hc2 : sample_c1 0 4 486000 2 = [-180, 180] := by
    unfold sample_c1
    rw [hlon2]
    norm_num
  refine ⟨⟨by rw [hc1]; norm_num, by norm_num⟩, ⟨by rw [hc2]; norm_num, by norm_num⟩⟩

/-- C4 (amended): the latitude bound holds for all parameters with
`min_lat ≤ max_lat` — negative or oversized longitude spans included, since the
latitude track does not depend on the longitude parameters; the longitude bound
holds with the closed interval `[-180, 180]` (the right endpoint is attainable,
e.g. when the net longitude span is an exact positive multiple of 360) and only
under the additional hypothesis that the net longitude span
`lon_perorbit * n_orbits` is nonnegative — for negative spans `c1` can fall
below `-180`, because the second correction loop tests the array maximum rather
than its minimum. -/
theorem C4_ranges (start_time stop_time lon_perorbit n : ℚ) (max_lat min_lat : ℝ)
    (hlat : min_lat ≤ max_lat) :
    (∀ y ∈ sample_c2 start_time stop_time n max_lat min_lat,
      min_lat ≤ y ∧ y ≤ max_lat) ∧
    (0 ≤ lon_perorbit * n_orbits start_time stop_time n →
      ∀ x ∈ sample_c1 start_time stop_time lon_perorbit n, -180 ≤ x ∧ x ≤ 180) := by
  constructor
  · intro y hy
    unfold sample_c2 at hy
    rcases List.mem_map.mp hy with ⟨x, hx, rfl⟩
    rcases lat_base_mem_cos hx with ⟨θ, rfl⟩
    have hc1 : -1 ≤ Real.cos θ := Real.neg_one_le_cos θ
    have hc2 : Real.cos θ ≤ 1 := Real.cos_le_one θ
    have hs : (0 : ℝ) ≤ (max_lat - min_lat) / 2 := by linarith
    constructor
    · nlinarith [mul_nonneg hs (show (0 : ℝ) ≤ Real.cos θ + 1 by linarith)]
    · nlinarith [mul_nonneg hs (show (0 : ℝ) ≤ 1 - Real.cos θ by linarith)]
  · intro hlon x hx
    unfold sample_c1 at hx
    rcases List.mem_map.mp hx with ⟨y, hy, rfl⟩
    unfold sample_lon at hy
    have hnonneg : ∀ z ∈ linspace (0 : ℚ)
        (lon_perorbit * n_orbits start_time stop_time n)
        (sample_N start_time stop_time n), 0 ≤ z :=
      linspace_mem_nonneg le_rfl hlon
    have hdnonneg := wrapDown_nonneg _ hnonneg
    have hup : wrapUp (wrapDown (linspace (0 : ℚ)
        (lon_perorbit * n_orbits start_time stop_time n)
        (sample_N start_time stop_time n))) = wrapDown (linspace (0 : ℚ)
        (lon_perorbit * n_orbits start_time stop_time n)
        (sample_N start_time stop_time n)) := by
      apply wrapUp_eq_self
      rcases eq_or_ne (wrapDown (linspace (0 : ℚ)
          (lon_perorbit * n_orbits start_time stop_time n)
          (sample_N start_time stop_time n))) [] with he | he
      · rw [he]
        norm_num [maxD]
      · exact hdnonneg _ (maxD_mem he)
    rw [hup] at hy
    have h1 : 0 ≤ y := hdnonneg y hy
    have h2 : y ≤ 360 := le_trans (le_maxD hy) (wrapDown_max_le _)
    constructor <;> linarith

/-- Witness for C4's amended theorem at concrete inputs (a negative longitude
span `lon_perorbit = -270000`, latitudes `[0, 1]`): the latitude bound holds
even though the span is negative. -/
theorem C4_ranges_witness :
    (0 : ℝ) ≤ 1 ∧
      (∀ y ∈ sample_c2 0 4 2 1 0, 0 ≤ y ∧ y ≤ 1) :=
  ⟨by norm_num,
    (C4_ranges 0 4 (-270000) 2 1 0 (by norm_num)).1⟩

lemma orbit_seconds_pos {n : ℚ} (hn : 0 < n) (h54 : n ≤ 5400) :
    1 ≤ orbit_seconds n := by
  unfold orbit_seconds
  rw [pyInt_of_nonneg (div_nonneg (by norm_num) hn.le)]
  rw [Int.le_floor]
  push_cast
  rw [le_div_iff₀ hn]
  linarith

lemma track_length (f : ℝ → ℝ) (start_time stop_time n : ℚ)
    (hn : 0 < n) (h54 : n ≤ 5400) (hss : start_time ≤ stop_time) :
    (if 0 < time_left start_time stop_time n then
      tile ((pi_arr (orbit_seconds n).toNat).map f)
          (pyInt (n_orbits start_time stop_time n)).toNat ++
        ((pi_arr (orbit_seconds n).toNat).take
          (pyInt (time_left start_time stop_time n)).toNat).map f
    else
      tile ((pi_arr (orbit_seconds n).toNat).map f)
        (pyInt (n_orbits start_time stop_time n)).toNat).length =
      sample_N start_time stop_time n := by
  have hmz1 : 1 ≤ orbit_seconds n := orbit_seconds_pos hn h54
  have hmz0 : (0 : ℚ) < ((orbit_seconds n : ℤ) : ℚ) := by
    exact_mod_cast (by omega : (0 : ℤ) < orbit_seconds n)
  have hD0 : 0 ≤ (stop_time - start_time) / n := div_nonneg (by linarith) hn.le
  have hno : n_orbits start_time stop_time n =
      ((stop_time - start_time) / n) / ((orbit_seconds n : ℤ) : ℚ) := by
    unfold n_orbits
    rw [div_div, mul_comm]
  have hkz : pyInt (n_orbits start_time stop_time n) =
      ⌊((stop_time - start_time) / n) / ((orbit_seconds n : ℤ) : ℚ)⌋ := by
    rw [hno, pyInt_of_nonneg (div_nonneg hD0 hmz0.le)]
  have hkz0 : 0 ≤ pyInt (n_orbits start_time stop_time n) := by
    rw [hkz]
    exact Int.floor_nonneg.mpr (div_nonneg hD0 hmz0.le)
  have hkD : (pyInt (n_orbits start_time stop_time n) : ℚ) * (orbit_seconds n : ℤ) ≤
      (stop_time - start_time) / n := by
    have h1 : ((pyInt (n_orbits start_time stop_time n) : ℤ) : ℚ) ≤
        ((stop_time - start_time) / n) / ((orbit_seconds n : ℤ) : ℚ) := by
      rw [hkz]
      exact Int.floor_le _
    calc (pyInt (n_orbits start_time stop_time n) : ℚ) * ((orbit_seconds n : ℤ) : ℚ)
        ≤ (((stop_time - start_time) / n) / ((orbit_seconds n : ℤ) : ℚ)) *
            ((orbit_seconds n : ℤ) : ℚ) :=
          mul_le_mul_of_nonneg_right h1 hmz0.le
      _ = (stop_time - start_time) / n := div_mul_cancel₀ _ (ne_of_gt hmz0)
  have hkD2 : (stop_time - start_time) / n <
      ((pyInt (n_orbits start_time stop_time n) : ℚ) + 1) * ((orbit_seconds n : ℤ) : ℚ) := by
    have h1 : ((stop_time - start_time) / n) / ((orbit_seconds n : ℤ) : ℚ) <
        (pyInt (n_orbits start_time stop_time n) : ℚ) + 1 := by
      rw [hkz]
      exact Int.lt_floor_add_one _
    calc (stop_time - start_time) / n
        = (((stop_time - start_time) / n) / ((orbit_seconds n : ℤ) : ℚ)) *
            ((orbit_seconds n : ℤ) : ℚ) := (div_mul_cancel₀ _ (ne_of_gt hmz0)).symm
      _ < _ := mul_lt_mul_of_pos_right h1 hmz0
  rw [add_mul, one_mul] at hkD2
  have htl : time_left start_time stop_time n =
      (stop_time - start_time) / n -
        (pyInt (n_orbits start_time stop_time n) : ℚ) * ((orbit_seconds n : ℤ) : ℚ) := by
    unfold time_left
    norm_cast
  have h0tl : 0 ≤ time_left start_time stop_time n := by
    rw [htl]
    linarith
  have htlm : time_left start_time stop_time n < ((orbit_seconds n : ℤ) : ℚ) := by
    rw [htl]
    linarith
  have hfl : ⌊time_left start_time stop_time n⌋ =
      ⌊(stop_time - start_time) / n⌋ -
        pyInt (n_orbits start_time stop_time n) * orbit_seconds n := by
    rw [htl]
    rw [show (pyInt (n_orbits start_time stop_time n) : ℚ) * ((orbit_seconds n : ℤ) : ℚ) =
      ((pyInt (n_orbits start_time stop_time n) * orbit_seconds n : ℤ) : ℚ) by push_cast; ring]
    exact Int.floor_sub_int _ _
  have hfl0 : 0 ≤ ⌊time_left start_time stop_time n⌋ := Int.floor_nonneg.mpr h0tl
  have hflm : ⌊time_left start_time stop_time n⌋ < orbit_seconds n := by
    rw [Int.floor_lt]
    exact htlm
  have hN : sample_N start_time stop_time n = ⌊(stop_time - start_time) / n⌋.toNat := by
    unfold sample_N
    rw [pyInt_of_nonneg hD0]
  have hDz0 : 0 ≤ ⌊(stop_time - start_time) / n⌋ := Int.floor_nonneg.mpr hD0
  have h1 : ((pyInt (n_orbits start_time stop_time n)).toNat : ℤ) =
      pyInt (n_orbits start_time stop_time n) := Int.toNat_of_nonneg hkz0
  have h2 : ((orbit_seconds n).toNat : ℤ) = orbit_seconds n :=
    Int.toNat_of_nonneg (by omega)
  have h3 : ((⌊time_left start_time stop_time n⌋).toNat : ℤ) =
      ⌊time_left start_time stop_time n⌋ := Int.toNat_of_nonneg hfl0
  have h4 : ((⌊(stop_time - start_time) / n⌋).toNat : ℤ) =
      ⌊(stop_time - start_time) / n⌋ := Int.toNat_of_nonneg hDz0
  by_cases hpos : 0 < time_left start_time stop_time n
  · rw [if_pos hpos]
    simp only [List.length_append, List.length_map, List.length_take, tile_length,
      pi_arr, linspace_length]
    rw [pyInt_of_nonneg h0tl, hN]
    have hmin : min (⌊time_left start_time stop_time n⌋).toNat (orbit_seconds n).toNat =
        (⌊time_left start_time stop_time n⌋).toNat := by
      apply min_eq_left
      omega
    rw [hmin]
    zify
    rw [h1, h2, h3, h4]
    linarith [hfl]
  · rw [if_neg hpos]
    simp only [tile_length, List.length_map, pi_arr, linspace_length]
    rw [hN]
    have htl0 : time_left start_time stop_time n = 0 := le_antisymm (not_lt.mp hpos) h0tl
    have hfl00 : ⌊time_left start_time stop_time n⌋ = 0 := by
      rw [htl0]
      norm_num
    zify
    rw [h1, h2, h4]
    have := hfl
    rw [hfl00] at this
    linarith [this]

lemma lat_base_length (start_time stop_time n : ℚ)
    (hn : 0 < n) (h54 : n ≤ 5400) (hss : start_time ≤ stop_time) :
    (lat_base start_time stop_time n).length = sample_N start_time stop_time n := by
  unfold lat_base
  exact track_length Real.cos start_time stop_time n hn h54 hss

lemma height_base_length (start_time stop_time n : ℚ)
    (hn : 0 < n) (h54 : n ≤ 5400) (hss : start_time ≤ stop_time) :
    (height_base start_time stop_time n).length = sample_N start_time stop_time n := by
  unfold height_base
  exact track_length Real.sin start_time stop_time n hn h54 hss

/-! ## `TLETrajectory` timestamp generation (source lines 204-212) -/

/-- Line 204: `n = int((stop_utcts-start_utcts)/time_cadence)`. -/
def tle_n0 (start_utcts stop_utcts time_cadence : ℤ) : ℤ :=
  pyInt (((stop_utcts - start_utcts : ℤ) : ℚ) / ((time_cadence : ℤ) : ℚ))

/-- Lines 205-207: `if start + cadence*n < stop: n += 1`. -/
def tle_n (start_utcts stop_utcts time_cadence : ℤ) : ℤ :=
  if start_utcts + time_cadence * tle_n0 start_utcts stop_utcts time_cadence < stop_utcts
  then tle_n0 start_utcts stop_utcts time_cadence + 1
  else tle_n0 start_utcts stop_utcts time_cadence

/-- Lines 205-207: the (possibly extended) stop timestamp
`stop_utcts = start_utcts + time_cadence * n`. -/
def tle_stop (start_utcts stop_utcts time_cadence : ℤ) : ℤ :=
  if start_utcts + time_cadence * tle_n0 start_utcts stop_utcts time_cadence < stop_utcts
  then start_utcts + time_cadence * (tle_n0 start_utcts stop_utcts time_cadence + 1)
  else stop_utcts

/-- Line 208: `UTCtimestamps = np.linspace(start_utcts, stop_utcts, n+1)` with
the updated `n` and `stop_utcts`. -/
def UTCtimestamps (start_utcts stop_utcts time_cadence : ℤ) : List ℚ :=
  linspace ((start_utcts : ℤ) : ℚ) ((tle_stop start_utcts stop_utcts time_cadence : ℤ) : ℚ)
    ((tle_n start_utcts stop_utcts time_cadence).toNat + 1)

/-- Lines 209-212: the `c1`/`c2`/`c3` entries of `results` are
`np.zeros(UTCtimestamps.shape)`. -/
def tle_zeros (start_utcts stop_utcts time_cadence : ℤ) : List ℚ :=
  List.replicate (UTCtimestamps start_utcts stop_utcts time_cadence).length 0

lemma tle_n0_bounds (start_utcts stop_utcts time_cadence : ℤ)
    (hc : 0 < time_cadence) (hss : start_utcts < stop_utcts) :
    0 ≤ tle_n0 start_utcts stop_utcts time_cadence ∧
    time_cadence * tle_n0 start_utcts stop_utcts time_cadence ≤ stop_utcts - start_utcts ∧
    stop_utcts - start_utcts < time_cadence * (tle_n0 start_utcts stop_utcts time_cadence + 1) := by
  have hcq : (0 : ℚ) < ((time_cadence : ℤ) : ℚ) := by exact_mod_cast hc
  have hdq : (0 : ℚ) ≤ ((stop_utcts - start_utcts : ℤ) : ℚ) := by
    have : (0 : ℤ) ≤ stop_utcts - start_utcts := by omega
    exact_mod_cast this
  have hq0 : 0 ≤ ((stop_utcts - start_utcts : ℤ) : ℚ) / ((time_cadence : ℤ) : ℚ) :=
    div_nonneg hdq hcq.le
  have hfl : tle_n0 start_utcts stop_utcts time_cadence =
      ⌊((stop_utcts - start_utcts : ℤ) : ℚ) / ((time_cadence : ℤ) : ℚ)⌋ := by
    unfold tle_n0
    rw [pyInt_of_nonneg hq0]
  refine ⟨by rw [hfl]; exact Int.floor_nonneg.mpr hq0, ?_, ?_⟩
  · have h1 : ((tle_n0 start_utcts stop_utcts time_cadence : ℤ) : ℚ) ≤
        ((stop_utcts - start_utcts : ℤ) : ℚ) / ((time_cadence : ℤ) : ℚ) := by
      rw [hfl]
      exact Int.floor_le _
    have h2 : ((time_cadence : ℤ) : ℚ) * ((tle_n0 start_utcts stop_utcts time_cadence : ℤ) : ℚ) ≤
        ((stop_utcts - start_utcts : ℤ) : ℚ) := by
      rw [mul_comm]
      calc ((tle_n0 start_utcts stop_utcts time_cadence : ℤ) : ℚ) * ((time_cadence : ℤ) : ℚ)
          ≤ (((stop_utcts - start_utcts : ℤ) : ℚ) / ((time_cadence : ℤ) : ℚ)) *
              ((time_cadence : ℤ) : ℚ) := mul_le_mul_of_nonneg_right h1 hcq.le
        _ = ((stop_utcts - start_utcts : ℤ) : ℚ) := div_mul_cancel₀ _ (ne_of_gt hcq)
    exact_mod_cast h2
  · have h1 : ((stop_utcts - start_utcts : ℤ) : ℚ) / ((time_cadence : ℤ) : ℚ) <
        ((tle_n0 start_utcts stop_utcts time_cadence : ℤ) : ℚ) + 1 := by
      rw [hfl]
      exact Int.lt_floor_add_one _
    have h2 : ((stop_utcts - start_utcts : ℤ) : ℚ) <
        ((time_cadence : ℤ) : ℚ) * (((tle_n0 start_utcts stop_utcts time_cadence : ℤ) : ℚ) + 1) := by
      rw [mul_comm]
      calc ((stop_utcts - start_utcts : ℤ) : ℚ)
          = (((stop_utcts - start_utcts : ℤ) : ℚ) / ((time_cadence : ℤ) : ℚ)) *
              ((time_cadence : ℤ) : ℚ) := (div_mul_cancel₀ _ (ne_of_gt hcq)).symm
        _ < _ := mul_lt_mul_of_pos_right h1 hcq
    exact_mod_cast h2

lemma tle_n_pos (start_utcts stop_utcts time_cadence : ℤ)
    (hc : 0 < time_cadence) (hss : start_utcts < stop_utcts) :
    1 ≤ tle_n start_utcts stop_utcts time_cadence ∧
    tle_stop start_utcts stop_utcts time_cadence =
      start_utcts + time_cadence * tle_n start_utcts stop_utcts time_cadence := by
  obtain ⟨h0, h1, h2⟩ := tle_n0_bounds start_utcts stop_utcts time_cadence hc hss
  unfold tle_n tle_stop
  by_cases hcond : start_utcts + time_cadence *
      tle_n0 start_utcts stop_utcts time_cadence < stop_utcts
  · rw [if_pos hcond, if_pos hcond]
    omega
  · rw [if_neg hcond, if_neg hcond]
    constructor
    · nlinarith
    · omega

/-- C6: when `stop - start` is not an exact multiple of the cadence,
`TLETrajectory` extends the stop timestamp upward to the next exact multiple
(`stop ≤ tle_stop < stop + cadence` and `tle_stop - start` is an exact multiple
of the cadence; when `cadence ∣ (stop - start)` nothing changes), and the
generated timestamp array has `n+1` samples running from `start` to `tle_stop`
with consecutive differences exactly equal to the cadence, so the whole
requested range is covered and never truncated. -/
theorem C6_timestamp_extension (start_utcts stop_utcts time_cadence : ℤ)
    (hc : 0 < time_cadence) (hss : start_utcts < stop_utcts) :
    stop_utcts ≤ tle_stop start_utcts stop_utcts time_cadence ∧
    tle_stop start_utcts stop_utcts time_cadence < stop_utcts + time_cadence ∧
    tle_stop start_utcts stop_utcts time_cadence =
      start_utcts + time_cadence * tle_n start_utcts stop_utcts time_cadence ∧
    (time_cadence ∣ (stop_utcts - start_utcts) →
      tle_stop start_utcts stop_utcts time_cadence = stop_utcts) ∧
    (UTCtimestamps start_utcts stop_utcts time_cadence).length =
      (tle_n start_utcts stop_utcts time_cadence).toNat + 1 ∧
    (UTCtimestamps start_utcts stop_utcts time_cadence).getD 0 0 =
      ((start_utcts : ℤ) : ℚ) ∧
    (UTCtimestamps start_utcts stop_utcts time_cadence).getD
        (tle_n start_utcts stop_utcts time_cadence).toNat 0 =
      ((tle_stop start_utcts stop_utcts time_cadence : ℤ) : ℚ) ∧
    ∀ i : ℕ, i + 1 < (UTCtimestamps start_utcts stop_utcts time_cadence).length →
      (UTCtimestamps start_utcts stop_utcts time_cadence).getD (i + 1) 0 -
        (UTCtimestamps start_utcts stop_utcts time_cadence).getD i 0 =
      ((time_cadence : ℤ) : ℚ) := by
  obtain ⟨hn01, hn02, hn03⟩ := tle_n0_bounds start_utcts stop_utcts time_cadence hc hss
  obtain ⟨hn1, hstop⟩ := tle_n_pos start_utcts stop_utcts time_cadence hc hss
  have hnnz : ((tle_n start_utcts stop_utcts time_cadence).toNat : ℤ) =
      tle_n start_utcts stop_utcts time_cadence := Int.toNat_of_nonneg (by omega)
  have hnnq : (((tle_n start_utcts stop_utcts time_cadence).toNat : ℕ) : ℚ) =
      ((tle_n start_utcts stop_utcts time_cadence : ℤ) : ℚ) := by
    exact_mod_cast congrArg (fun z : ℤ => (z : ℚ)) hnnz
  have hnq0 : ((tle_n start_utcts stop_utcts time_cadence : ℤ) : ℚ) ≠ 0 := by
    have : (0 : ℚ) < ((tle_n start_utcts stop_utcts time_cadence : ℤ) : ℚ) := by
      exact_mod_cast (by omega : (0 : ℤ) < tle_n start_utcts stop_utcts time_cadence)
    exact ne_of_gt this
  have hm1 : (((tle_n start_utcts stop_utcts time_cadence).toNat + 1 : ℕ) : ℚ) - 1 =
      ((tle_n start_utcts stop_utcts time_cadence : ℤ) : ℚ) := by
    push_cast
    rw [hnnq]
    ring
  have hbma : ((tle_stop start_utcts stop_utcts time_cadence : ℤ) : ℚ) -
      ((start_utcts : ℤ) : ℚ) =
      ((time_cadence : ℤ) : ℚ) * ((tle_n start_utcts stop_utcts time_cadence : ℤ) : ℚ) := by
    rw [hstop]
    push_cast
    ring
  refine ⟨?_, ?_, hstop, ?_, ?_, ?_, ?_, ?_⟩
  · unfold tle_stop
    by_cases hcond : start_utcts + time_cadence *
        tle_n0 start_utcts stop_utcts time_cadence < stop_utcts
    · rw [if_pos hcond]
      nlinarith
    · rw [if_neg hcond]
  · unfold tle_stop
    by_cases hcond : start_utcts + time_cadence *
        tle_n0 start_utcts stop_utcts time_cadence < stop_utcts
    · rw [if_pos hcond]
      nlinarith
    · rw [if_neg hcond]
      omega
  · intro hdvd
    rcases hdvd with ⟨t, ht⟩
    have ht1 : tle_n0 start_utcts stop_utcts time_cadence ≤ t := by
      apply le_of_mul_le_mul_left _ hc
      omega
    have ht2 : t < tle_n0 start_utcts stop_utcts time_cadence + 1 := by
      apply lt_of_mul_lt_mul_left _ hc.le
      omega
    have hteq : t = tle_n0 start_utcts stop_utcts time_cadence := by omega
    subst hteq
    unfold tle_stop
    rw [if_neg (by omega : ¬ start_utcts + time_cadence *
      tle_n0 start_utcts stop_utcts time_cadence < stop_utcts)]
  · unfold UTCtimestamps
    rw [linspace_length]
  · unfold UTCtimestamps
    exact linspace_getD_zero _ _ (by omega)
  · unfold UTCtimestamps
    have h := linspace_getD_last ((start_utcts : ℤ) : ℚ)
      ((tle_stop start_utcts stop_utcts time_cadence : ℤ) : ℚ)
      (m := (tle_n start_utcts stop_utcts time_cadence).toNat + 1)
      (by omega) (by rw [hm1]; exact hnq0)
    simpa using h
  · intro i hi
    unfold UTCtimestamps at hi ⊢
    rw [linspace_length] at hi
    rw [linspace_getD_succ_sub _ _ hi, hm1, hbma, mul_div_assoc, div_self hnq0, mul_one]

/-- Witness for C6 at `start = 0`, `stop = 10`, `cadence = 3` (10 is not a
multiple of 3, so the stop time is extended to 12). -/
theorem C6_timestamp_extension_witness :
    (10 : ℤ) ≤ tle_stop 0 10 3 ∧ tle_stop 0 10 3 < 10 + 3 :=
  ⟨(C6_timestamp_extension 0 10 3 (by norm_num) (by norm_num)).1,
   (C6_timestamp_extension 0 10 3 (by norm_num) (by norm_num)).2.1⟩

/-! ## `TLETrajectory` TLE-epoch assignment (source lines 256-323) -/

/-- The `np.where` condition under which iteration `i` of the `forward` branch
selects a timestamp `t` (lines 268-269, 281-283, 289-290): iteration `0`
selects `t < epochs[0]`; iterations `0 < i < len(epochs)` select
`epochs[i-1] ≤ t < epochs[i]`; iteration `len(epochs)` selects
`epochs[len-1] ≤ t`. -/
def fwdCond (epochs : List ℚ) (t : ℚ) (i : ℕ) : Bool :=
  if i = 0 then decide (t < epochs.getD 0 0)
  else if i < epochs.length then
    decide (epochs.getD (i - 1) 0 ≤ t) && decide (t < epochs.getD i 0)
  else decide (epochs.getD (i - 1) 0 ≤ t)

/-- The `tle_idx` chosen at iteration `i` of the `forward` branch (lines 271,
284, 291). -/
def fwdIdx (i : ℕ) : ℕ := if i = 0 then 0 else i - 1

/-- Per-timestamp projection of the `forward` assignment loop (lines 265-301):
`i` runs over `range(len(epochs)+1)` and a later write to `results[...][idx]`
overwrites an earlier one. -/
def forwardAssign (epochs : List ℚ) (t : ℚ) : Option ℕ :=
  (List.range (epochs.length + 1)).foldl
    (fun acc i => if fwdCond epochs t i then some (fwdIdx i) else acc) none

/-- Lines 256-262: `ts_assignments = np.argmin(ts_nearest, axis=0)`, where row
`i` of `ts_nearest` is `abs(UTCtimestamps - epochs[i])`; `np.argmin` returns
the first index attaining the minimum. -/
def nearestAssign (epochs : List ℚ) (t : ℚ) : ℕ :=
  (List.range epochs.length).foldl
    (fun best i => if |t - epochs.getD i 0| < |t - epochs.getD best 0| then i
      else best) 0

inductive PyErr : Type
  | nameError
deriving DecidableEq

/-- One iteration of the assignment loop over the whole timestamp array
(lines 265-323).  For `method = 'forward'` and `method = 'nearest'` the
iteration writes the chosen `tle_idx` into the positions selected by the
corresponding `np.where`; for any other method string neither branch binds
`idx` or `tle_idx`, so their first use (lines 320-322) raises a `NameError`. -/
def loopIter (method : String) (epochs ts : List ℚ)
    (st : List (Option ℕ)) (i : ℕ) : Except PyErr (List (Option ℕ)) :=
  if method = "forward" then
    Except.ok (List.zipWith
      (fun t v => if fwdCond epochs t i then some (fwdIdx i) else v) ts st)
  else if method = "nearest" then
    Except.ok (List.zipWith
      (fun t v => if nearestAssign epochs t = i then some i else v) ts st)
  else Except.error PyErr.nameError

/-- The full assignment loop `for i in range(len(tle_data['UTC_timestamps'])+1)`
(line 265), threading the per-timestamp TLE assignment state (initially no
timestamp is assigned). -/
def tleAssignRun (method : String) (epochs ts : List ℚ) :
    Except PyErr (List (Option ℕ)) :=
  (List.range (epochs.length + 1)).foldlM (loopIter method epochs ts)
    (ts.map fun _ => none)

lemma foldl_ite_last (c : ℕ → Bool) (g : ℕ → ℕ) (n i0 : ℕ) (acc : Option ℕ)
    (h0 : i0 < n) (hc : c i0 = true)
    (hlast : ∀ i, i0 < i → i < n → c i = false) :
    (List.range n).foldl (fun a i => if c i then some (g i) else a) acc =
      some (g i0) := by
  induction n with
  | zero => omega
  | succ k ih =>
    rw [List.range_succ, List.foldl_append, List.foldl_cons, List.foldl_nil]
    by_cases hik : i0 = k
    · subst hik
      rw [hc]
      simp
    · have hik2 : i0 < k := by omega
      rw [hlast k (by omega) (by omega)]
      simp only [Bool.false_eq_true, if_false]
      exact ih hik2 (fun i h1 h2 => hlast i h1 (by omega))

lemma sorted_getD_mono {l : List ℚ} (hs : l.Sorted (· ≤ ·)) {i j : ℕ}
    (hij : i ≤ j) (hj : j < l.length) : l.getD i 0 ≤ l.getD j 0 := by
  rcases eq_or_lt_of_le hij with rfl | hlt
  · exact le_refl _
  · have hi : i < l.length := lt_trans hlt hj
    rw [List.getD_eq_getElem _ _ hi, List.getD_eq_getElem _ _ hj]
    exact List.pairwise_iff_getElem.mp hs i j hi hj hlt

/-- C1: under the `forward` policy, with a chronologically ordered TLE file
holding at least one record, every timestamp `t` is assigned to the most recent
TLE whose epoch is `≤ t` (largest index whose epoch is `≤ t`); timestamps
strictly before the first epoch are assigned index `0`, and timestamps at or
after the last epoch are assigned the last index. -/
theorem C1_forward_assignment (epochs : List ℚ) (t : ℚ)
    (hL : 0 < epochs.length) (hsort : epochs.Sorted (· ≤ ·)) :
    ∃ j, forwardAssign epochs t = some j ∧ j < epochs.length ∧
      (t < epochs.getD 0 0 → j = 0) ∧
      (epochs.getD (epochs.length - 1) 0 ≤ t → j = epochs.length - 1) ∧
      (epochs.getD 0 0 ≤ t →
        epochs.getD j 0 ≤ t ∧
        ∀ k, k < epochs.length → epochs.getD k 0 ≤ t → k ≤ j) := by
  by_cases ht : t < epochs.getD 0 0
  · refine ⟨0, ?_, hL, fun _ => rfl, ?_, ?_⟩
    · unfold forwardAssign
      apply foldl_ite_last _ _ (epochs.length + 1) 0 _ (by omega)
      · unfold fwdCond
        rw [if_pos rfl]
        exact decide_eq_true ht
      · intro i hi0 hiL1
        have hne0 : i ≠ 0 := by omega
        have hi1L : i - 1 < epochs.length := by omega
        have hle : epochs.getD 0 0 ≤ epochs.getD (i - 1) 0 :=
          sorted_getD_mono hsort (by omega) hi1L
        have hnot : ¬ (epochs.getD (i - 1) 0 ≤ t) := by linarith
        unfold fwdCond
        rw [if_neg hne0]
        by_cases hiL : i < epochs.length
        · rw [if_pos hiL]
          rw [decide_eq_false hnot, Bool.false_and]
        · rw [if_neg hiL]
          exact decide_eq_false hnot
    · intro hlast
      have h1 : epochs.getD 0 0 ≤ epochs.getD (epochs.length - 1) 0 :=
        sorted_getD_mono hsort (by omega) (by omega)
      linarith
    · intro h0
      linarith
  · push_neg at ht
    refine ⟨Nat.findGreatest (fun k => epochs.getD k 0 ≤ t) (epochs.length - 1),
      ?_, ?_, ?_, ?_, ?_⟩
    · have hPj : epochs.getD
          (Nat.findGreatest (fun k => epochs.getD k 0 ≤ t) (epochs.length - 1)) 0 ≤ t :=
        Nat.findGreatest_spec (P := fun k => epochs.getD k 0 ≤ t) (m := 0) (by omega) ht
      have hjle : Nat.findGreatest (fun k => epochs.getD k 0 ≤ t) (epochs.length - 1) ≤
          epochs.length - 1 := Nat.findGreatest_le _
      by_cases hjeq : Nat.findGreatest (fun k => epochs.getD k 0 ≤ t)
          (epochs.length - 1) = epochs.length - 1
      · unfold forwardAssign
        rw [show Nat.findGreatest (fun k => epochs.getD k 0 ≤ t) (epochs.length - 1) =
          fwdIdx epochs.length by unfold fwdIdx; rw [if_neg (by omega)]; omega]
        apply foldl_ite_last _ _ (epochs.length + 1) epochs.length _ (by omega)
        · unfold fwdCond
          rw [if_neg (by omega), if_neg (by omega)]
          apply decide_eq_true
          rw [← hjeq]
          exact hPj
        · intro i hi1 hi2
          omega
      · have hjlt : Nat.findGreatest (fun k => epochs.getD k 0 ≤ t)
            (epochs.length - 1) < epochs.length - 1 := by omega
        unfold forwardAssign
        rw [show Nat.findGreatest (fun k => epochs.getD k 0 ≤ t) (epochs.length - 1) =
          fwdIdx (Nat.findGreatest (fun k => epochs.getD k 0 ≤ t) (epochs.length - 1) + 1)
          by unfold fwdIdx; rw [if_neg (by omega)]; omega]
        apply foldl_ite_last _ _ (epochs.length + 1)
          (Nat.findGreatest (fun k => epochs.getD k 0 ≤ t) (epochs.length - 1) + 1) _
          (by omega)
        · unfold fwdCond
          rw [if_neg (by omega), if_pos (by omega)]
          have hnextP : ¬ (epochs.getD
              (Nat.findGreatest (fun k => epochs.getD k 0 ≤ t) (epochs.length - 1) + 1) 0 ≤ t) := by
            intro hP
            have := Nat.le_findGreatest (P := fun k => epochs.getD k 0 ≤ t)
              (m := Nat.findGreatest (fun k => epochs.getD k 0 ≤ t) (epochs.length - 1) + 1)
              (n := epochs.length - 1) (by omega) hP
            omega
          rw [Bool.and_eq_true]
          constructor
          · apply decide_eq_true
            simpa using hPj
          · apply decide_eq_true
            linarith [lt_of_not_le hnextP]
        · intro i hi1 hi2
          have hne0 : i ≠ 0 := by omega
          have hnotP : ¬ (epochs.getD (i - 1) 0 ≤ t) := by
            intro hP
            have := Nat.le_findGreatest (P := fun k => epochs.getD k 0 ≤ t)
              (m := i - 1) (n := epochs.length - 1) (by omega) hP
            omega
          unfold fwdCond
          rw [if_neg hne0]
          by_cases hiL : i < epochs.length
          · rw [if_pos hiL]
            rw [decide_eq_false hnotP, Bool.false_and]
          · rw [if_neg hiL]
            exact decide_eq_false hnotP
    · have := Nat.findGreatest_le (P := fun k => epochs.getD k 0 ≤ t) (epochs.length - 1)
      omega
    · intro h0
      linarith
    · intro hlast
      have h1 : epochs.length - 1 ≤
          Nat.findGreatest (fun k => epochs.getD k 0 ≤ t) (epochs.length - 1) :=
        Nat.le_findGreatest (by omega) hlast
      have h2 := Nat.findGreatest_le (P := fun k => epochs.getD k 0 ≤ t) (epochs.length - 1)
      omega
    · intro h0
      refine ⟨Nat.findGreatest_spec (P := fun k => epochs.getD k 0 ≤ t) (m := 0) (by omega) h0, ?_⟩
      intro k hk hPk
      by_cases hkle : k ≤ epochs.length - 1
      · exact Nat.le_findGreatest hkle hPk
      · omega

/-- Witness for C1 with the two-record file `epochs = [10, 20]` and `t = 25`
(at/after the last epoch). -/
theorem C1_forward_assignment_witness :
    ∃ j, forwardAssign [(10 : ℚ), 20] 25 = some j ∧ j < 2 := by
  obtain ⟨j, h1, h2, _⟩ := C1_forward_assignment [10, 20] 25 (by norm_num)
    (by simp [List.sorted_cons]; norm_num)
  exact ⟨j, h1, by simpa using h2⟩

lemma argmin_foldl_spec (v : ℕ → ℚ) (L : ℕ) :
    ((List.range L).foldl (fun best i => if v i < v best then i else best) 0 = 0 ∨
      (List.range L).foldl (fun best i => if v i < v best then i else best) 0 < L) ∧
    (∀ k, k < L →
      v ((List.range L).foldl (fun best i => if v i < v best then i else best) 0) ≤ v k) ∧
    (∀ k, k < (List.range L).foldl (fun best i => if v i < v best then i else best) 0 →
      v ((List.range L).foldl (fun best i => if v i < v best then i else best) 0) < v k) := by
  induction L with
  | zero => simp
  | succ K ih =>
    rw [List.range_succ, List.foldl_append, List.foldl_cons, List.foldl_nil]
    obtain ⟨ih1, ih2, ih3⟩ := ih
    by_cases hcmp : v K <
        v ((List.range K).foldl (fun best i => if v i < v best then i else best) 0)
    · rw [if_pos hcmp]
      refine ⟨Or.inr (by omega), ?_, ?_⟩
      · intro k hk
        rcases Nat.lt_succ_iff_lt_or_eq.mp hk with h | rfl
        · exact le_trans hcmp.le (ih2 k h)
        · exact le_refl _
      · intro k hk
        exact lt_of_lt_of_le hcmp (ih2 k hk)
    · rw [if_neg hcmp]
      refine ⟨?_, ?_, ih3⟩
      · rcases ih1 with h | h
        · exact Or.inl h
        · exact Or.inr (by omega)
      · intro k hk
        rcases Nat.lt_succ_iff_lt_or_eq.mp hk with h | rfl
        · exact ih2 k h
        · exact not_lt.mp hcmp

/-- C5: under the `nearest` policy the TLE index assigned to a timestamp `t`
(`np.argmin` over `abs(UTCtimestamps - epochs[i])`) minimises the absolute
difference between `t` and the TLE epoch, and a tie is broken deterministically
toward the lower index. -/
theorem C5_nearest_assignment (epochs : List ℚ) (t : ℚ) (hL : 0 < epochs.length) :
    nearestAssign epochs t < epochs.length ∧
    (∀ k, k < epochs.length →
      |t - epochs.getD (nearestAssign epochs t) 0| ≤ |t - epochs.getD k 0|) ∧
    (∀ k, k < epochs.length →
      |t - epochs.getD k 0| = |t - epochs.getD (nearestAssign epochs t) 0| →
      nearestAssign epochs t ≤ k) := by
  obtain ⟨h1, h2, h3⟩ := argmin_foldl_spec (fun i => |t - epochs.getD i 0|) epochs.length
  unfold nearestAssign
  refine ⟨?_, h2, ?_⟩
  · rcases h1 with h | h
    · rw [h]
      exact hL
    · exact h
  · intro k hk heq
    by_contra hlt
    push_neg at hlt
    have := h3 k hlt
    rw [heq] at this
    exact lt_irrefl _ this

/-- Witness for C5 with `epochs = [10, 20]` and `t = 15`, an exact tie:
both epochs are at distance 5 and the assignment must prefer index 0. -/
theorem C5_nearest_assignment_witness :
    nearestAssign [(10 : ℚ), 20] 15 < 2 ∧ nearestAssign [(10 : ℚ), 20] 15 = 0 := by
  refine ⟨by simpa using (C5_nearest_assignment [10, 20] 15 (by norm_num)).1, ?_⟩
  norm_num [nearestAssign, List.range_succ]

/-- C10: for every `method` string other than exactly `'forward'` or
`'nearest'` (including the value `'closest'` advertised by the function's own
docstring), the assignment loop of `TLETrajectory` raises a `NameError` on its
first iteration — the branch guards bind `idx`/`tle_idx` only for the two
recognised strings, and the loop body then uses them unconditionally. -/
theorem C10_unknown_method (method : String) (epochs ts : List ℚ)
    (hm1 : method ≠ "forward") (hm2 : method ≠ "nearest")
    (_hL : 0 < epochs.length) :
    tleAssignRun method epochs ts = Except.error PyErr.nameError := by
  unfold tleAssignRun
  rw [List.range_succ_eq_map, List.foldlM_cons]
  unfold loopIter
  rw [if_neg hm1, if_neg hm2]
  rfl

/-- Witness for C10 at the documented-but-unimplemented method `'closest'`. -/
theorem C10_unknown_method_witness :
    tleAssignRun "closest" [(0 : ℚ)] [(0 : ℚ)] = Except.error PyErr.nameError :=
  C10_unknown_method "closest" [(0 : ℚ)] [(0 : ℚ)] (by decide) (by decide) (by decide)

/-- C8: for every run of `SampleTrajectory` that produces a trajectory
(positive cadence at most one orbital period, duration at least one cadence)
the four arrays `sat_time`, `c1`, `c2`, `c3` all have length
`N = int((stop-start)/n)` — in particular a duration that does not divide
evenly into whole orbits yields a final partial orbit truncated to exactly the
remaining sample count, never dropped — and the trajectory is nonempty; for
`TLETrajectory` the three position arrays are zero-initialised with exactly the
shape of the timestamp array. -/
theorem C8_equal_lengths (start_time stop_time lon_perorbit n : ℚ)
    (max_lat min_lat max_height min_height p : ℝ)
    (hn : 0 < n) (h54 : n ≤ 5400) (hd : n ≤ stop_time - start_time)
    (start_utcts stop_utcts time_cadence : ℤ)
    (_hc : 0 < time_cadence) (_hss : start_utcts < stop_utcts) :
    (sample_sat_time start_time stop_time n).length =
      sample_N start_time stop_time n ∧
    (sample_c1 start_time stop_time lon_perorbit n).length =
      sample_N start_time stop_time n ∧
    (sample_c2 start_time stop_time n max_lat min_lat).length =
      sample_N start_time stop_time n ∧
    (sample_c3 start_time stop_time n max_height min_height p).length =
      sample_N start_time stop_time n ∧
    0 < sample_N start_time stop_time n ∧
    (tle_zeros start_utcts stop_utcts time_cadence).length =
      (UTCtimestamps start_utcts stop_utcts time_cadence).length := by
  have hss : start_time ≤ stop_time := by nlinarith
  refine ⟨?_, ?_, ?_, ?_, ?_, ?_⟩
  · unfold sample_sat_time
    exact linspace_length _ _ _
  · unfold sample_c1 sample_lon
    rw [List.length_map, wrapUp_length, wrapDown_length, linspace_length]
  · unfold sample_c2
    rw [List.length_map]
    exact lat_base_length start_time stop_time n hn h54 hss
  · unfold sample_c3
    rw [List.length_zipWith, height_base_length start_time stop_time n hn h54 hss,
      linspace_length, min_self]
  · unfold sample_N
    have h1 : (1 : ℚ) ≤ (stop_time - start_time) / n := by
      rw [le_div_iff₀ hn]
      linarith
    have h2 : (1 : ℤ) ≤ ⌊(stop_time - start_time) / n⌋ := by
      rw [Int.le_floor]
      exact_mod_cast h1
    rw [pyInt_of_nonneg (by linarith)]
    omega
  · unfold tle_zeros
    rw [List.length_replicate]

/-- Witness for C8 at `start = 0`, `stop = 10`, `n = 3` (so `N = 3` and the
duration is a fraction of one orbit: the whole trajectory is one truncated
partial orbit) and a TLE request `start = 0`, `stop = 10`, `cadence = 3`. -/
theorem C8_equal_lengths_witness :
    (sample_sat_time 0 10 3).length = sample_N 0 10 3 ∧ 0 < sample_N 0 10 3 :=
  ⟨(C8_equal_lengths 0 10 363 3 1 0 1 0 1 (by norm_num) (by norm_num) (by norm_num)
      0 10 3 (by norm_num) (by norm_num)).1,
   (C8_equal_lengths 0 10 363 3 1 0 1 0 1 (by norm_num) (by norm_num) (by norm_num)
      0 10 3 (by norm_num) (by norm_num)).2.2.2.2.1⟩

/-! ## `ModelFlythrough` control flow (source lines 345-484) -/

/-- The observable steps of one `ModelFlythrough` call, in program order:
coercing list inputs to arrays (lines 391-398), resolving the model, variable
and coordinate names (lines 413-420), staging model files (line 423), the
model-interpolation call (lines 427-430), merging units (lines 433-442),
collecting per-model file names (lines 450-454), writing the output file
(line 457), and the per-variable 3D/1D plot calls (lines 474-482). -/
inductive Ev : Type
  | coerceInputs
  | resolveModel
  | resolveVars
  | resolveCoord
  | prepareFiles
  | interpolate
  | mergeUnits
  | fileTimes
  | writeOutput
  | plot3D
  | plot1D
deriving DecidableEq

/-- The `AttributeError`s `ModelFlythrough` can raise itself: unknown output
extension (lines 401-404), pre-existing output file (lines 407-410), and the
unsupported plot coordinate systems `SPH`/`RLL` (lines 463-468). -/
inductive Err : Type
  | badExtension
  | fileExists
  | badPlotCoord
deriving DecidableEq

/-- `output_name.split('.')[-1]` (line 401): the characters after the last dot,
or the whole string when there is no dot. -/
def extOf (s : String) : String :=
  ((s.data.reverse.takeWhile (fun c => c ≠ '.')).reverse).asString

/-- Line 402: the accepted output extensions `['nc', 'csv', 'txt', '']`. -/
def valid_extensions : List String := ["nc", "csv", "txt", ""]

/-- The control flow of `ModelFlythrough` as the ordered list of observable
events together with the error raised, if any.  External collaborators are
abstracted: `output_file_exists` is the result of `isfile(output_name)`
(line 407), `plot_coord` is the already-resolved plot coordinate name
(line 463), and `nvars` is the number of surviving variables plotted
(lines 474-482, two plots per variable). -/
def ModelFlythroughRun (output_name : String) (output_file_exists : Bool)
    (plot_coord : String) (nvars : ℕ) : List Ev × Option Err :=
  if extOf output_name ∉ valid_extensions then
    ([Ev.coerceInputs], some Err.badExtension)
  else if output_file_exists then
    ([Ev.coerceInputs], some Err.fileExists)
  else if output_name ≠ "" then
    if plot_coord ∈ ["SPH", "RLL"] then
      ([Ev.coerceInputs, Ev.resolveModel, Ev.resolveVars, Ev.resolveCoord,
        Ev.prepareFiles, Ev.interpolate, Ev.mergeUnits, Ev.fileTimes,
        Ev.writeOutput], some Err.badPlotCoord)
    else
      ([Ev.coerceInputs, Ev.resolveModel, Ev.resolveVars, Ev.resolveCoord,
        Ev.prepareFiles, Ev.interpolate, Ev.mergeUnits, Ev.fileTimes,
        Ev.writeOutput] ++ (List.replicate nvars [Ev.plot3D, Ev.plot1D]).flatten,
        none)
  else
    ([Ev.coerceInputs, Ev.resolveModel, Ev.resolveVars, Ev.resolveCoord,
      Ev.prepareFiles, Ev.interpolate, Ev.mergeUnits], none)

/-- C2: the counterexample.  A call with a valid non-empty output name, a
fresh output file and `plot_coord = 'SPH'` does raise the plot-coordinate
input-validation error, but only *after* the model-interpolation call and
*after* the output file has been written: both events precede the error in the
trace, contradicting the claim that the error is raised before them. -/
theorem C2_counterexample :
    (ModelFlythroughRun "out.nc" false "SPH" 1).2 = some Err.badPlotCoord ∧
    ¬ (Ev.interpolate ∉ (ModelFlythroughRun "out.nc" false "SPH" 1).1) ∧
    ¬ (Ev.writeOutput ∉ (ModelFlythroughRun "out.nc" false "SPH" 1).1) := by
  refine ⟨?_, ?_, ?_⟩ <;> decide

/-- C2 (amended): for every call in which `plot_coord` resolves to `SPH` or
`RLL`, the output name has a valid extension, the output file does not already
exist and `output_name` is non-empty, `ModelFlythrough` raises the fatal
plot-coordinate error before any plot is generated — but after the
model-interpolation call and after the output file has been written.  (With an
empty `output_name` the plot-coordinate value is never checked at all.) -/
theorem C2_plot_coord_check (output_name plot_coord : String) (nvars : ℕ)
    (hext : extOf output_name ∈ valid_extensions)
    (hne : output_name ≠ "")
    (hpc : plot_coord = "SPH" ∨ plot_coord = "RLL") :
    (ModelFlythroughRun output_name false plot_coord nvars).2 =
      some Err.badPlotCoord ∧
    Ev.plot3D ∉ (ModelFlythroughRun output_name false plot_coord nvars).1 ∧
    Ev.plot1D ∉ (ModelFlythroughRun output_name false plot_coord nvars).1 ∧
    Ev.interpolate ∈ (ModelFlythroughRun output_name false plot_coord nvars).1 ∧
    Ev.writeOutput ∈ (ModelFlythroughRun output_name false plot_coord nvars).1 := by
  have hpcmem : plot_coord ∈ ["SPH", "RLL"] := by
    rcases hpc with rfl | rfl <;> simp
  unfold ModelFlythroughRun
  rw [if_neg (by simpa using hext), if_neg (by simp), if_pos hne, if_pos hpcmem]
  refine ⟨rfl, by decide, by decide, by decide, by decide⟩

/-- Witness for C2's amended theorem at `output_name = "out.nc"`,
`plot_coord = "SPH"`, one variable. -/
theorem C2_plot_coord_check_witness :
    (ModelFlythroughRun "out.nc" false "SPH" 1).2 = some Err.badPlotCoord ∧
    Ev.plot3D ∉ (ModelFlythroughRun "out.nc" false "SPH" 1).1 :=
  ⟨(C2_plot_coord_check "out.nc" "SPH" 1 (by decide) (by decide) (Or.inl rfl)).1,
   (C2_plot_coord_check "out.nc" "SPH" 1 (by decide) (by decide) (Or.inl rfl)).2.1⟩

/-- C7: if the extension of `output_name` is not one of `''`, `'nc'`, `'csv'`,
`'txt'`, or if the output file already exists, `ModelFlythrough` raises the
corresponding fatal input-validation error before any model resolution, file
preparation, interpolation call or output write — in particular an existing
output file is never overwritten. -/
theorem C7_output_validation (output_name : String) (output_file_exists : Bool)
    (plot_coord : String) (nvars : ℕ)
    (h : extOf output_name ∉ valid_extensions ∨ output_file_exists = true) :
    (∃ e, (ModelFlythroughRun output_name output_file_exists plot_coord nvars).2 =
        some e ∧ (e = Err.badExtension ∨ e = Err.fileExists)) ∧
    Ev.resolveModel ∉
      (ModelFlythroughRun output_name output_file_exists plot_coord nvars).1 ∧
    Ev.prepareFiles ∉
      (ModelFlythroughRun output_name output_file_exists plot_coord nvars).1 ∧
    Ev.interpolate ∉
      (ModelFlythroughRun output_name output_file_exists plot_coord nvars).1 ∧
    Ev.writeOutput ∉
      (ModelFlythroughRun output_name output_file_exists plot_coord nvars).1 := by
  unfold ModelFlythroughRun
  by_cases hext : extOf output_name ∉ valid_extensions
  · rw [if_pos hext]
    exact ⟨⟨Err.badExtension, rfl, Or.inl rfl⟩, by decide, by decide, by decide, by decide⟩
  · rw [if_neg hext]
    have hex : output_file_exists = true := by tauto
    rw [if_pos hex]
    exact ⟨⟨Err.fileExists, rfl, Or.inr rfl⟩, by decide, by decide, by decide, by decide⟩

/-- Witness for C7 at the spec's own scenario: output extension `"xyz"`. -/
theorem C7_output_validation_witness :
    ∃ e, (ModelFlythroughRun "out.xyz" false "GEO" 1).2 = some e ∧
      (e = Err.badExtension ∨ e = Err.fileExists) :=
  (C7_output_validation "out.xyz" false "GEO" 1 (Or.inl (by decide))).1
